import Mathlib

/-!
# Verification of the windowed dictionary-matching text-analysis pipeline

Shallow embedding of `src/analyze_text.py` (function `analyze_text`): a
time-stamped transcript is matched against a categorized word dictionary over
sliding 30-second windows stepped by 15 seconds, producing per-speaker time
series and a cross-speaker aggregate series.

Modelling conventions:
* Times (utterance `start`/`end`, session cutoffs) are modelled as integers
  (`Int`); the Python code uses pandas floats, whose rounding behaviour is not
  relevant to any claim checked here.
* A transcript row after pandas numeric coercion is modelled with `Option`
  fields: `none` stands for a missing value or a value whose numeric coercion
  failed (NaN), which `dropna` removes.
* `re.findall(r'\b\w+\b', text.lower())` is modelled by `tokenize`: maximal
  runs of alphanumeric-or-underscore characters of the lower-cased text
  (ASCII; the inputs of every claim are ASCII).
* A wildcard dictionary word `w` is compiled in Python by
  `re.compile(re.sub(r'\*', '.*', w))` and used via `pat.match(token)`
  (anchored at the start of the token, free at the end).  For words whose
  characters other than `*` are plain word characters — the only kind in the
  dictionary and in every claim — this is exactly glob matching with `*` as
  "any sequence of characters", modelled by `globM`.
* Python `set`/`defaultdict` iteration order: the per-category literal word
  set is modelled as a duplicate-free list, the category maps as association
  lists in first-insertion order.  The iteration order of the Python set
  `all_categories` is NOT determined by the inputs (string hashing is
  randomized per process), so every function taking the category column order
  takes it as an explicit `cats : List String` parameter; `allCategories`
  provides one canonical enumeration.
-/

/-- Python `str.lower` (ASCII). -/
def lowerStr (s : String) : String := String.mk (s.data.map Char.toLower)

/-- The whitespace characters Python's default `str.strip` removes
(the ones that can occur in the inputs considered here). -/
def isSpaceChar (c : Char) : Bool := c == ' ' || c == '\t' || c == '\n' || c == '\r'

/-- Python `str.strip`. -/
def trimStr (s : String) : String :=
  String.mk (((s.data.dropWhile isSpaceChar).reverse.dropWhile isSpaceChar).reverse)

/-- Characters that `\w` matches for the ASCII inputs considered here. -/
def isWordChar (c : Char) : Bool := c.isAlphanum || c == '_'

/-- Cut a character list into maximal runs of word characters
(accumulator holds the current run, reversed). -/
def tokenizeAux : List Char → List Char → List String
  | [], cur => if cur.isEmpty then [] else [String.mk cur.reverse]
  | c :: cs, cur =>
    if isWordChar c then tokenizeAux cs (c :: cur)
    else if cur.isEmpty then tokenizeAux cs []
    else String.mk cur.reverse :: tokenizeAux cs []

/-- Tokenization, `re.findall(r'\b\w+\b', s.lower())`. -/
def tokenize (s : String) : List String := tokenizeAux (lowerStr s).data []

/-- Dictionary word normalization, `str(row['words']).strip().lower()`. -/
def normWord (w : String) : String := lowerStr (trimStr w)

/-- Does `globM ps` accept some suffix of the token?  (The `.*` produced by
the wildcard marker may swallow any number of characters.) -/
def suffixAny (f : List Char → Bool) : List Char → Bool
  | [] => f []
  | t :: ts => f (t :: ts) || suffixAny f ts

/-- `pat.match(token)` for the compiled pattern of a wildcard word: anchored
at the start of the token, not requiring the whole token to be consumed
(`re.match` semantics); `*` stands for `.*`. -/
def globM : List Char → List Char → Bool
  | [], _ => true
  | p :: ps, ts =>
    if p = '*' then suffixAny (globM ps) ts
    else
      match ts with
      | [] => false
      | t :: ts2 => p == t && globM ps ts2

/-- Token-level match of a compiled wildcard pattern. -/
def patMatches (pat tok : String) : Bool := globM pat.data tok.data

/-- The maps `category_words` / `category_patterns`: association lists from category
code to the words of that category. -/
structure Lexicon where
  words : List (String × List String)
  patterns : List (String × List String)
deriving DecidableEq, Repr

/-- Value of a `defaultdict` at a key: the stored list, or empty. -/
def lookupList (m : List (String × List String)) (k : String) : List String :=
  match m.lookup k with
  | some l => l
  | none => []

/-- Insert into a per-category set (`category_words[category].add(word)`):
no duplicate is stored. -/
def setInsert (m : List (String × List String)) (k v : String) :
    List (String × List String) :=
  match m with
  | [] => [(k, [v])]
  | (k2, l) :: rest =>
    if k2 = k then (k2, if v ∈ l then l else l ++ [v]) :: rest
    else (k2, l) :: setInsert rest k v

/-- Append to a per-category list (`category_patterns[category].append(p)`):
duplicates are kept. -/
def listAppend (m : List (String × List String)) (k v : String) :
    List (String × List String) :=
  match m with
  | [] => [(k, [v])]
  | (k2, l) :: rest =>
    if k2 = k then (k2, l ++ [v]) :: rest
    else (k2, l) :: listAppend rest k v

/-- Negative diction code test, `category[0] == 'N'`.  (Python raises on an
empty code; the spec calls that a fatal configuration error, and no claim
exercises it: here an empty code simply has no first character.) -/
def isNegCode (cat : String) : Bool := cat.data.head? == some 'N'

/-- One iteration of the dictionary loop: normalize the word, skip negative
diction codes (starting with `'N'`), route wildcard words to the pattern
list and plain words to the literal set. -/
def addEntry (lex : Lexicon) (e : String × String) : Lexicon :=
  let w := normWord e.1
  let cat := e.2
  if isNegCode cat then lex
  else if w.data.contains '*' then { lex with patterns := listAppend lex.patterns cat w }
  else { lex with words := setInsert lex.words cat w }

/-- The dictionary loop over all `(words, diction_code)` rows. -/
def buildLexicon (entries : List (String × String)) : Lexicon :=
  entries.foldl addEntry ⟨[], []⟩

/-- One canonical enumeration of
`set(category_words.keys()) | set(category_patterns.keys())`
(the Python set itself fixes no enumeration order). -/
def firstDedup {α : Type} [DecidableEq α] : List α → List α
  | [] => []
  | x :: xs => x :: (firstDedup xs).filter (fun y => y ≠ x)

def allCategories (lex : Lexicon) : List String :=
  firstDedup (lex.words.map Prod.fst ++ lex.patterns.map Prod.fst)

/-! ## Transcript loading and filtering -/

/-- The session bounds `{start, end}` of one group (`task_cutoff`). -/
structure Cutoff where
  cstart : Int
  cend : Int
deriving DecidableEq, Repr

/-- A transcript row after pandas numeric coercion of `start`/`end`:
`none` is a missing value or a failed coercion (NaN). -/
structure RawRow where
  speaker : Option String
  rstart : Option Int
  rend : Option Int
  text : Option String
deriving DecidableEq, Repr

/-- A surviving utterance with its tokenized text. -/
structure CleanUtt where
  speaker : String
  ustart : Int
  uend : Int
  tokens : List String
deriving DecidableEq, Repr

/-- Cleaning: `dropna(subset=['start','end'])`, the cutoff filter
`start >= cutoff.start and end <= cutoff.end`, `dropna()` over
`start,end,text,speaker`, and tokenization of the lower-cased text. -/
def cleanUtterances (rows : List RawRow) (cut : Cutoff) : List CleanUtt :=
  rows.filterMap (fun r =>
    match r.rstart, r.rend, r.text, r.speaker with
    | some s, some e, some tx, some sp =>
      if cut.cstart ≤ s ∧ e ≤ cut.cend then some ⟨sp, s, e, tokenize tx⟩ else none
    | _, _, _, _ => none)

/-! ## Window generation and matching -/

/-- Window starts, `np.arange(cutoff.start, cutoff.end, step_size)` with `step_size = 15`:
`ceil((end - start)/15)` points `start + 15*i`. -/
def timePoints (cut : Cutoff) : List Int :=
  (List.range ((cut.cend - cut.cstart + 14).toNat / 15)).map
    (fun (i : Nat) => cut.cstart + 15 * (i : Int))

/-- The fixed participant allow-list `participant_speakers`. -/
def participantList : List String := ["HCILab1", "HCILab2", "CSL_Laptop", "CSL_LabPC"]

/-- The `df_window` row filter: speaker on the participant allow-list,
`end < window_end`, `end >= window_start`. -/
def inWindow (ws we : Int) (u : CleanUtt) : Bool :=
  participantList.contains u.speaker && decide (u.uend < we) && decide (ws ≤ u.uend)

/-- Literal-word increments of one utterance for one category: one per token
contained in the category's literal word set. -/
def litCount (lex : Lexicon) (cat : String) (tokens : List String) : Nat :=
  tokens.countP (fun t => (lookupList lex.words cat).contains t)

/-- Increments of one compiled pattern: one per token it matches. -/
def patMatchCount (pat : String) (tokens : List String) : Nat :=
  tokens.countP (fun t => patMatches pat t)

/-- Pattern increments of one utterance for one category: every pattern in
the category's list is tried against every token, duplicates included. -/
def patCount (lex : Lexicon) (cat : String) (tokens : List String) : Nat :=
  ((lookupList lex.patterns cat).map (fun p => patMatchCount p tokens)).sum

/-- All increments of one utterance for one category. -/
def uttCatCount (lex : Lexicon) (cat : String) (u : CleanUtt) : Nat :=
  litCount lex cat u.tokens + patCount lex cat u.tokens

/-- Did this utterance produce any increment at all?  Only then does its
speaker get an entry in `speaker_category` (a `defaultdict` is extended only
when some `+= 1` touches the key). -/
def uttHasMatch (lex : Lexicon) (u : CleanUtt) : Bool :=
  ((lex.words.map Prod.fst ++ lex.patterns.map Prod.fst).map
    (fun c => uttCatCount lex c u)).sum != 0

/-- The speakers that appear as keys of `speaker_category` for one window,
in order of first registration. -/
def observedSpeakers (lex : Lexicon) (wutts : List CleanUtt) : List String :=
  firstDedup ((wutts.filter (fun u => uttHasMatch lex u)).map (·.speaker))

/-- The tally `speaker_category[s][c]` at the end of one window's loop. -/
def windowSpeakerCount (lex : Lexicon) (wutts : List CleanUtt) (s c : String) : Nat :=
  ((wutts.filter (fun u => u.speaker == s)).map (fun u => uttCatCount lex c u)).sum

/-- One output row: `{'speaker': …, 'window_start': …, 'window_end': …}`
plus one column per category, in the enumeration order `cats` of
`all_categories`. -/
structure Row where
  speaker : String
  window_start : Int
  window_end : Int
  counts : List (String × Nat)
deriving DecidableEq, Repr

def zeroCounts (cats : List String) : List (String × Nat) :=
  cats.map (fun c => (c, 0))

/-- The placeholder row `speaker_category["None"]` materializes into. -/
def noneRow (cats : List String) (ws : Int) : Row :=
  ⟨"None", ws, ws + 30, zeroCounts cats⟩

/-- The rows one window contributes to `speaker_time_series`: the window is
`[t, t+30)`; if no row of the transcript passes the `df_window` filter, a
single all-zero `"None"` row; otherwise one row per registered speaker.
(A speaker all of whose overlapping utterances match nothing is never
registered and gets no row.) -/
def windowRows (lex : Lexicon) (cats : List String) (utts : List CleanUtt)
    (t : Int) : List Row :=
  let wutts := utts.filter (inWindow t (t + 30))
  if wutts.isEmpty then [noneRow cats t]
  else (observedSpeakers lex wutts).map (fun s =>
    ⟨s, t, t + 30, cats.map (fun c => (c, windowSpeakerCount lex wutts s c))⟩)

/-- The list `speaker_time_series` accumulated over all windows (before sorting). -/
def speakerTimeSeries (lex : Lexicon) (cats : List String)
    (utts : List CleanUtt) (cut : Cutoff) : List Row :=
  (timePoints cut).flatMap (windowRows lex cats utts)

/-! ## Sorting and series assembly -/

/-- Strict string comparison, lexicographic by code point — the order
Python uses to compare speaker names. -/
def charListLt : List Char → List Char → Bool
  | _, [] => false
  | [], _ :: _ => true
  | c :: cs, d :: ds => if c < d then true else if d < c then false else charListLt cs ds

def strLtB (a b : String) : Bool := charListLt a.data b.data

/-- The lexicographic key of `sort_values(by=['window_start','speaker'])`. -/
def rowLe (a b : Row) : Prop :=
  a.window_start < b.window_start ∨
    (a.window_start = b.window_start ∧ strLtB b.speaker a.speaker = false)

instance : DecidableRel rowLe := fun a b => by
  unfold rowLe; infer_instance

/-- The key of `sort_values(by=['window_start'])`. -/
def rowStartLe (a b : Row) : Prop := a.window_start ≤ b.window_start

instance : DecidableRel rowStartLe := fun a b => by
  unfold rowStartLe; infer_instance

/-- The sorted `speaker_time_series_df`. -/
def sortedSeries (lex : Lexicon) (cats : List String)
    (utts : List CleanUtt) (cut : Cutoff) : List Row :=
  (speakerTimeSeries lex cats utts cut).insertionSort rowLe

/-- The distinct real speakers
(`df[df['speaker'] != 'None']['speaker'].unique()`). -/
def realSpeakers (rows : List Row) : List String :=
  firstDedup ((rows.filter (fun r => r.speaker != "None")).map (·.speaker))

/-- Pair order used by `groupby(['window_start','window_end'])`
(sorted group keys). -/
def pairLe (a b : Int × Int) : Prop :=
  a.1 < b.1 ∨ (a.1 = b.1 ∧ a.2 ≤ b.2)

instance : DecidableRel pairLe := fun a b => by
  unfold pairLe; infer_instance

/-- String order used by `sorted(...)` over speaker names. -/
def strLe (a b : String) : Prop := strLtB b a = false

instance : DecidableRel strLe := fun a b => by
  unfold strLe; infer_instance

/-- A row of the emitted per-speaker table.  The gap-fill rows come from an
index-keyed `groupby` result whose `pd.concat(..., ignore_index=True)`
drops the group keys, so their `window_start`/`window_end` columns are NaN
(empty in the CSV): the window fields are therefore `Option Int`, `none`
standing for NaN. -/
structure OutRow where
  speaker : String
  window_start : Option Int
  window_end : Option Int
  counts : List (String × Nat)
deriving DecidableEq, Repr

/-- A tally row carried unchanged into the per-speaker table: its window
labels are real values. -/
def toOutRow (r : Row) : OutRow :=
  ⟨r.speaker, some r.window_start, some r.window_end, r.counts⟩

/-- The gap-fill rows for one speaker: one row per `(window_start,
window_end)` group of the table whose `window_start` is absent from the
speaker's own (plus sentinel) rows — `groupby` sorts the group keys, but
the keys stay in the index and `pd.concat(..., ignore_index=True)` drops
them, so every emitted gap row is the unlabelled all-zero sentinel row
`("None", NaN, NaN, 0, …)`. -/
def missingRows (rows own : List Row) (cats : List String) : List OutRow :=
  let ownStarts := own.map (·.window_start)
  let keys := ((rows.filter (fun r => ! ownStarts.contains r.window_start)).map
    (fun r => (r.window_start, r.window_end)))
  ((firstDedup keys).insertionSort pairLe).map
    (fun _ => ⟨"None", none, none, zeroCounts cats⟩)

/-- One speaker's output series: the concatenation of the speaker's own
(plus sentinel) rows with the gap rows, re-sorted by `window_start`.  The
gap rows' `window_start` is NaN, which `sort_values` places last (in their
incoming order): the result is the labelled rows sorted by window start,
followed by the unlabelled gap rows. -/
def singleSeries (rows : List Row) (cats : List String) (s : String) : List OutRow :=
  let own := rows.filter (fun r => r.speaker == s || r.speaker == "None")
  (own.insertionSort rowStartLe).map toOutRow ++ missingRows rows own cats

/-- A row of the group (aggregate) table. -/
structure GroupRow where
  window_start : Int
  window_end : Int
  counts : List (String × Nat)
  speaker : String
deriving DecidableEq, Repr

/-- Column lookup in a row (every row carries every category column). -/
def countOf (r : Row) (c : String) : Nat :=
  match r.counts.lookup c with
  | some n => n
  | none => 0

/-- Aggregation, `groupby(['window_start','window_end']).agg(...)`: per window, category
columns are summed over all rows, and the speaker field becomes the sorted,
de-duplicated, comma-joined speaker list. -/
def groupSeries (rows : List Row) (cats : List String) : List GroupRow :=
  ((firstDedup (rows.map (fun r => (r.window_start, r.window_end)))).insertionSort
    pairLe).map (fun p =>
      let grp := rows.filter (fun r => r.window_start == p.1 && r.window_end == p.2)
      ⟨p.1, p.2,
       cats.map (fun c => (c, (grp.map (fun r => countOf r c)).sum)),
       String.intercalate ", " ((firstDedup (grp.map (·.speaker))).insertionSort strLe)⟩)

/-! ## End-to-end wrappers -/

/-- The combined per-speaker table of `analyze_text` for one transcript,
using the canonical category enumeration. -/
def analyzeSeries (entries : List (String × String)) (raws : List RawRow)
    (cut : Cutoff) : List Row :=
  let lex := buildLexicon entries
  sortedSeries lex (allCategories lex) (cleanUtterances raws cut) cut

/-- The group (aggregate) table of `analyze_text` for one transcript. -/
def analyzeGroup (entries : List (String × String)) (raws : List RawRow)
    (cut : Cutoff) : List GroupRow :=
  groupSeries (analyzeSeries entries raws cut) (allCategories (buildLexicon entries))

/-- One speaker's emitted time-series table. -/
def analyzeSpeaker (entries : List (String × String)) (raws : List RawRow)
    (cut : Cutoff) (s : String) : List OutRow :=
  singleSeries (analyzeSeries entries raws cut) (allCategories (buildLexicon entries)) s

/-- Two output rows that agree on everything except the order of their
category columns (the effect of enumerating the category set in a
different order). -/
def rowEquiv (r1 r2 : Row) : Prop :=
  r1.speaker = r2.speaker ∧ r1.window_start = r2.window_start
    ∧ r1.window_end = r2.window_end ∧ r1.counts.Perm r2.counts

/-- The fields of a row that do not depend on the category column order. -/
def rowKey (r : Row) : String × Int × Int := (r.speaker, r.window_start, r.window_end)

/-! ## Helper lemmas -/

theorem mem_firstDedup {α : Type} [DecidableEq α] {x : α} :
    ∀ {l : List α}, x ∈ firstDedup l ↔ x ∈ l := by
  intro l
  induction l with
  | nil => simp [firstDedup]
  | cons a l ih =>
    simp only [firstDedup, List.mem_cons, List.mem_filter]
    constructor
    · rintro (rfl | ⟨h, _⟩)
      · exact Or.inl rfl
      · exact Or.inr (ih.mp h)
    · rintro (rfl | h)
      · exact Or.inl rfl
      · by_cases hx : x = a
        · exact Or.inl hx
        · exact Or.inr ⟨ih.mpr h, by simpa using hx⟩

theorem nodup_firstDedup {α : Type} [DecidableEq α] :
    ∀ (l : List α), (firstDedup l).Nodup := by
  intro l
  induction l with
  | nil => simp [firstDedup]
  | cons a l ih =>
    simp only [firstDedup]
    refine List.Nodup.cons ?_ (List.Nodup.filter _ ih)
    intro hmem
    rcases List.mem_filter.mp hmem with ⟨_, hne⟩
    simp at hne

theorem suffixAny_true (f : List Char → Bool) (hf : ∀ ts, f ts = true) :
    ∀ ts, suffixAny f ts = true := by
  intro ts
  induction ts with
  | nil => simpa [suffixAny] using hf []
  | cons t ts ih => simp [suffixAny, hf]

/-- For a star-free prefix `p`, the compiled pattern of `p ++ "*"` accepts a
token exactly when `p` is a prefix of the token. -/
theorem globM_append_star :
    ∀ (p t : List Char), '*' ∉ p → globM (p ++ ['*']) t = p.isPrefixOf t := by
  intro p
  induction p with
  | nil =>
    intro t _
    have : ∀ ts, globM [] ts = true := fun ts => rfl
    simpa [globM, List.isPrefixOf] using suffixAny_true (globM []) this t
  | cons c p ih =>
    intro t hns
    have hc : ¬ c = '*' := fun h => hns (h ▸ List.mem_cons_self c p)
    have hp : '*' ∉ p := fun h => hns (List.mem_cons_of_mem c h)
    cases t with
    | nil => simp [globM, hc, List.isPrefixOf]
    | cons d ts => simp [globM, hc, List.isPrefixOf, ih ts hp]

/-! ## Claim theorems -/

/-- Claim C4: wildcard matching is prefix-anchored — for every token, a pattern
built from a star-free literal part followed by the wildcard marker matches
the token exactly when the literal part is a prefix of the token (full-token
equality not required); `"art*"` matches `"art"`, `"artist"`, `"article"`
but not `"smart"`. -/
theorem wildcard_match_anchored_at_token_head :
    (∀ (p t : String), '*' ∉ p.data →
      patMatches (p ++ "*") t = p.data.isPrefixOf t.data)
    ∧ patMatches "art*" "art" = true
    ∧ patMatches "art*" "artist" = true
    ∧ patMatches "art*" "article" = true
    ∧ patMatches "art*" "smart" = false := by
  refine ⟨?_, by decide, by decide, by decide, by decide⟩
  intro p t hp
  have hdata : (p ++ "*").data = p.data ++ ['*'] := by
    simp [String.data_append]
  rw [patMatches, hdata]
  exact globM_append_star p.data t.data hp

theorem wildcard_match_anchored_at_token_head_witness :
    patMatches ("art" ++ "*") "smart" = "art".data.isPrefixOf "smart".data :=
  wildcard_match_anchored_at_token_head.1 "art" "smart" (by decide)

/-- Claim C5: literal dictionary words match case-insensitively and only on
whole-token equality — the literal set built from a single non-wildcard
entry contains a token exactly when the token equals the normalized
(trimmed, lower-cased) word; `"good"` matches the token of `"Good"` but
not the token of `"goodness"`. -/
theorem literal_match_is_whole_token_equality :
    (∀ (w c t : String), isNegCode c = false →
      (normWord w).data.contains '*' = false →
      (lookupList (buildLexicon [(w, c)]).words c).contains t = (t == normWord w))
    ∧ litCount (buildLexicon [("good", "P")]) "P" (tokenize "Good") = 1
    ∧ litCount (buildLexicon [("good", "P")]) "P" (tokenize "goodness") = 0 := by
  refine ⟨?_, by decide, by decide⟩
  intro w c t hneg hstar
  have hstar2 : ¬ ('*' ∈ (normWord w).data) := by simpa using hstar
  by_cases h : t = normWord w
  · simp [buildLexicon, addEntry, hneg, hstar2, setInsert, lookupList, List.lookup, h]
  · simp [buildLexicon, addEntry, hneg, hstar2, setInsert, lookupList, List.lookup, h,
      beq_eq_false_iff_ne.mpr h]

theorem literal_match_is_whole_token_equality_witness :
    (lookupList (buildLexicon [("good", "P")]).words "P").contains "goodness"
      = ("goodness" == normWord "good") :=
  literal_match_is_whole_token_equality.1 "good" "P" "goodness" (by decide) (by decide)

/-- Claim C3: in the bounded-session variant an utterance contributes to a
window's per-speaker tally exactly when its speaker is on the participant
allow-list, its end time is strictly before the window end, and its end time
is at least the window start; an utterance failing any of the three
conditions adds nothing to the window's counts. -/
theorem bounded_overlap_rule :
    ∀ (lex : Lexicon) (ws we : Int) (u : CleanUtt) (utts : List CleanUtt) (s c : String),
      windowSpeakerCount lex ((u :: utts).filter (inWindow ws we)) s c
        = (if u.speaker ∈ participantList ∧ u.uend < we ∧ ws ≤ u.uend ∧ u.speaker = s
           then uttCatCount lex c u else 0)
          + windowSpeakerCount lex (utts.filter (inWindow ws we)) s c := by
  intro lex ws we u utts s c
  have hiff : (inWindow ws we u = true)
      ↔ (u.speaker ∈ participantList ∧ u.uend < we ∧ ws ≤ u.uend) := by
    simp [inWindow, and_assoc]
  by_cases hw : inWindow ws we u = true
  · have h3 := hiff.mp hw
    by_cases hs : u.speaker = s
    · rw [if_pos ⟨h3.1, h3.2.1, h3.2.2, hs⟩]
      simp [List.filter_cons, hw, windowSpeakerCount, hs]
    · rw [if_neg (by tauto)]
      simp [List.filter_cons, hw, windowSpeakerCount, hs]
  · rw [if_neg (by rw [hiff] at hw; tauto)]
    simp [List.filter_cons, hw]

theorem bounded_overlap_rule_witness :
    windowSpeakerCount (buildLexicon [("x", "X")])
        (([⟨"A", 0, 5, ["x"]⟩, ⟨"HCILab1", 0, 5, ["x"]⟩] :
          List CleanUtt).filter (inWindow 0 30)) "A" "X"
      = (if ("A" : String) ∈ participantList ∧ (5 : Int) < 30 ∧ (0 : Int) ≤ 5 ∧ ("A" : String) = "A"
         then uttCatCount (buildLexicon [("x", "X")]) "X" ⟨"A", 0, 5, ["x"]⟩ else 0)
        + windowSpeakerCount (buildLexicon [("x", "X")])
            (([⟨"HCILab1", 0, 5, ["x"]⟩] : List CleanUtt).filter (inWindow 0 30)) "A" "X" :=
  bounded_overlap_rule (buildLexicon [("x", "X")]) 0 30 ⟨"A", 0, 5, ["x"]⟩
    [⟨"HCILab1", 0, 5, ["x"]⟩] "A" "X"

/-- Claim C8: a transcript row whose start or end is missing or failed numeric
coercion is dropped by the cleaning step and contributes nothing anywhere;
the remaining rows are still analyzed and both output tables are still
produced (equal to the run without the malformed row). -/
theorem malformed_rows_are_dropped :
    ∀ (entries : List (String × String)) (cut : Cutoff) (pre post : List RawRow) (r : RawRow),
      r.rstart = none ∨ r.rend = none →
      cleanUtterances (pre ++ r :: post) cut = cleanUtterances (pre ++ post) cut
      ∧ analyzeSeries entries (pre ++ r :: post) cut = analyzeSeries entries (pre ++ post) cut
      ∧ analyzeGroup entries (pre ++ r :: post) cut = analyzeGroup entries (pre ++ post) cut := by
  intro entries cut pre post r h
  have hclean : cleanUtterances (pre ++ r :: post) cut = cleanUtterances (pre ++ post) cut := by
    rcases r with ⟨sp, st, en, tx⟩
    cases st <;> cases en <;> cases tx <;> cases sp <;>
      simp_all [cleanUtterances, List.filterMap_append, List.filterMap_cons]
  exact ⟨hclean, by simp [analyzeSeries, hclean], by simp [analyzeGroup, analyzeSeries, hclean]⟩

theorem malformed_rows_are_dropped_witness :
    cleanUtterances [RawRow.mk (some "HCILab1") none (some 3) (some "x"),
        RawRow.mk (some "HCILab1") (some 0) (some 5) (some "x")] ⟨0, 15⟩
      = cleanUtterances [RawRow.mk (some "HCILab1") (some 0) (some 5) (some "x")] ⟨0, 15⟩ :=
  (malformed_rows_are_dropped [("x", "X")] ⟨0, 15⟩ []
    [RawRow.mk (some "HCILab1") (some 0) (some 5) (some "x")]
    (RawRow.mk (some "HCILab1") none (some 3) (some "x")) (Or.inl rfl)).1

theorem setInsert_of_mem :
    ∀ (m : List (String × List String)) (k v : String),
      v ∈ lookupList m k → setInsert m k v = m := by
  intro m k v
  induction m with
  | nil => simp [lookupList, List.lookup]
  | cons p rest ih =>
    rcases p with ⟨k2, l⟩
    by_cases hk : k2 = k
    · subst hk
      intro h
      have hv : v ∈ l := by simpa [lookupList, List.lookup] using h
      simp [setInsert, hv]
    · intro h
      have h2 : v ∈ lookupList rest k := by
        have hbeq : (k == k2) = false := beq_eq_false_iff_ne.mpr (Ne.symm hk)
        simpa [lookupList, List.lookup, hbeq] using h
      simp [setInsert, hk, ih h2]

theorem lookupList_listAppend_self :
    ∀ (m : List (String × List String)) (k v : String),
      lookupList (listAppend m k v) k = lookupList m k ++ [v] := by
  intro m k v
  induction m with
  | nil => simp [listAppend, lookupList, List.lookup]
  | cons p rest ih =>
    rcases p with ⟨k2, l⟩
    by_cases hk : k2 = k
    · subst hk
      simp [listAppend, lookupList, List.lookup]
    · have hbeq : (k == k2) = false := beq_eq_false_iff_ne.mpr (Ne.symm hk)
      simp [listAppend, hk, lookupList, List.lookup, hbeq] at ih ⊢
      exact ih

/-- Claim C10: a duplicate literal (non-wildcard) dictionary entry is absorbed by
the per-category word set and leaves the lexicon — hence every count —
unchanged, while each occurrence of a wildcard pattern entry is appended to
the category's pattern list and contributes its own increments for every
token it matches. -/
theorem duplicate_entry_semantics :
    (∀ (entries : List (String × String)) (w c : String),
      (normWord w).data.contains '*' = false →
      normWord w ∈ lookupList (buildLexicon entries).words c →
      buildLexicon (entries ++ [(w, c)]) = buildLexicon entries)
    ∧ (∀ (entries : List (String × String)) (w c : String) (tokens : List String),
      (normWord w).data.contains '*' = true → isNegCode c = false →
      patCount (buildLexicon (entries ++ [(w, c)])) c tokens
        = patCount (buildLexicon entries) c tokens + patMatchCount (normWord w) tokens) := by
  constructor
  · intro entries w c hstar hmem
    have hb : buildLexicon (entries ++ [(w, c)]) = addEntry (buildLexicon entries) (w, c) := by
      simp [buildLexicon, List.foldl_append]
    rw [hb]
    unfold addEntry
    by_cases hneg : isNegCode c
    · simp [hneg]
    · have hstar2 : ¬ ('*' ∈ (normWord w).data) := by simpa using hstar
      simp [hneg, hstar2, setInsert_of_mem _ _ _ hmem]
  · intro entries w c tokens hstar hneg
    have hb : buildLexicon (entries ++ [(w, c)]) = addEntry (buildLexicon entries) (w, c) := by
      simp [buildLexicon, List.foldl_append]
    rw [hb]
    unfold addEntry
    have hstar2 : '*' ∈ (normWord w).data := by simpa using hstar
    simp [hneg, hstar2, patCount, lookupList_listAppend_self]

theorem duplicate_entry_semantics_witness :
    buildLexicon ([("good", "P")] ++ [("good", "P")]) = buildLexicon [("good", "P")] :=
  duplicate_entry_semantics.1 [("good", "P")] "good" "P" (by decide) (by decide)

theorem keys_setInsert :
    ∀ (m : List (String × List String)) (k v c : String),
      c ∈ (setInsert m k v).map Prod.fst → c = k ∨ c ∈ m.map Prod.fst := by
  intro m k v c
  induction m with
  | nil => simp [setInsert]
  | cons p rest ih =>
    rcases p with ⟨k2, l⟩
    by_cases hk : k2 = k
    · subst hk
      simp [setInsert]
    · simp only [setInsert, if_neg hk, List.map_cons, List.mem_cons]
      rintro (rfl | h)
      · simp
      · rcases ih h with h2 | h2
        · exact Or.inl h2
        · exact Or.inr (by simp [h2])

theorem keys_listAppend :
    ∀ (m : List (String × List String)) (k v c : String),
      c ∈ (listAppend m k v).map Prod.fst → c = k ∨ c ∈ m.map Prod.fst := by
  intro m k v c
  induction m with
  | nil => simp [listAppend]
  | cons p rest ih =>
    rcases p with ⟨k2, l⟩
    by_cases hk : k2 = k
    · subst hk
      simp [listAppend]
    · simp only [listAppend, if_neg hk, List.map_cons, List.mem_cons]
      rintro (rfl | h)
      · simp
      · rcases ih h with h2 | h2
        · exact Or.inl h2
        · exact Or.inr (by simp [h2])

theorem foldl_addEntry_no_neg :
    ∀ (entries : List (String × String)) (lex0 : Lexicon),
      (∀ c ∈ lex0.words.map Prod.fst ++ lex0.patterns.map Prod.fst, isNegCode c = false) →
      ∀ c ∈ (entries.foldl addEntry lex0).words.map Prod.fst
          ++ (entries.foldl addEntry lex0).patterns.map Prod.fst,
        isNegCode c = false := by
  intro entries
  induction entries with
  | nil => intro lex0 h0; simpa using h0
  | cons e entries ih =>
    intro lex0 h0
    rw [List.foldl_cons]
    refine ih (addEntry lex0 e) ?_
    intro c hc
    unfold addEntry at hc
    by_cases hneg : isNegCode e.2 = true
    · rw [if_pos hneg] at hc
      exact h0 c hc
    · rw [if_neg hneg] at hc
      by_cases hstar : (normWord e.1).data.contains '*' = true
      · rw [if_pos hstar] at hc
        rcases List.mem_append.mp hc with h | h
        · exact h0 c (List.mem_append.mpr (Or.inl h))
        · rcases keys_listAppend _ _ _ _ h with rfl | h2
          · simpa using hneg
          · exact h0 c (List.mem_append.mpr (Or.inr h2))
      · rw [if_neg hstar] at hc
        rcases List.mem_append.mp hc with h | h
        · rcases keys_setInsert _ _ _ _ h with rfl | h2
          · simpa using hneg
          · exact h0 c (List.mem_append.mpr (Or.inl h2))
        · exact h0 c (List.mem_append.mpr (Or.inr h))

/-- Claim C6: categories whose code starts with `'N'` are skipped when the lexicon
is built: they never occur in `all_categories`, and since every output row
carries exactly the `all_categories` columns, they never appear as a column
of a per-speaker or aggregate row and never receive a count. -/
theorem map_fst_keyed {β : Type} (f : String → β) :
    ∀ (l : List String), (l.map (fun c => (c, f c))).map Prod.fst = l := by
  intro l
  induction l with
  | nil => rfl
  | cons a l ih => simp only [List.map_cons, ih]

theorem negative_categories_excluded :
    ∀ (entries : List (String × String)) (raws : List RawRow) (cut : Cutoff),
      (∀ c ∈ allCategories (buildLexicon entries), isNegCode c = false)
      ∧ (∀ r ∈ analyzeSeries entries raws cut,
          r.counts.map Prod.fst = allCategories (buildLexicon entries))
      ∧ (∀ g ∈ analyzeGroup entries raws cut,
          g.counts.map Prod.fst = allCategories (buildLexicon entries)) := by
  intro entries raws cut
  refine ⟨?_, ?_, ?_⟩
  · intro c hc
    have hc2 := mem_firstDedup.mp hc
    exact foldl_addEntry_no_neg entries ⟨[], []⟩ (by simp) c hc2
  · intro r hr
    have hr2 : r ∈ speakerTimeSeries (buildLexicon entries)
        (allCategories (buildLexicon entries)) (cleanUtterances raws cut) cut :=
      ((List.perm_insertionSort rowLe _).mem_iff).mp hr
    rcases List.mem_flatMap.mp hr2 with ⟨t, _, hw⟩
    unfold windowRows at hw
    by_cases he : ((cleanUtterances raws cut).filter (inWindow t (t + 30))).isEmpty = true
    · rw [if_pos he] at hw
      rcases List.mem_singleton.mp hw with rfl
      exact map_fst_keyed (fun _ => (0 : Nat)) _
    · rw [if_neg he] at hw
      rcases List.mem_map.mp hw with ⟨s, _, rfl⟩
      exact map_fst_keyed _ _
  · intro g hg
    rcases List.mem_map.mp hg with ⟨p, _, rfl⟩
    exact map_fst_keyed _ _

theorem negative_categories_excluded_witness :
    isNegCode "POS" = false :=
  (negative_categories_excluded [("hello", "POS"), ("bad", "NEG")] [] ⟨0, 15⟩).1
    "POS" (by decide)

theorem windowRows_start_end :
    ∀ (lex : Lexicon) (cats : List String) (utts : List CleanUtt) (t : Int) (r : Row),
      r ∈ windowRows lex cats utts t → r.window_start = t ∧ r.window_end = t + 30 := by
  intro lex cats utts t r h
  unfold windowRows at h
  by_cases he : ((utts.filter (inWindow t (t + 30))).isEmpty) = true
  · rw [if_pos he] at h
    rcases List.mem_singleton.mp h with rfl
    exact ⟨rfl, rfl⟩
  · rw [if_neg he] at h
    rcases List.mem_map.mp h with ⟨s, _, rfl⟩
    exact ⟨rfl, rfl⟩

/-- Claim C7: window generation — the i-th generated window starts at
`bounds.start + i*15`, windows are generated exactly while the start is
strictly below `bounds.end`, consecutive starts differ by exactly 15 (hence
are strictly ascending), and every generated row's window satisfies
`window_end - window_start = 30`. -/
theorem window_generation_law :
    ∀ (cut : Cutoff),
      (∀ (i : Nat) (h : i < (timePoints cut).length),
        (timePoints cut)[i] = cut.cstart + 15 * (i : Int)
        ∧ cut.cstart + 15 * (i : Int) < cut.cend)
      ∧ (∀ i : Nat, cut.cstart + 15 * (i : Int) < cut.cend →
          i < (timePoints cut).length)
      ∧ (∀ (i : Nat) (h : i + 1 < (timePoints cut).length),
          (timePoints cut)[i + 1] = (timePoints cut)[i] + 15)
      ∧ (∀ (lex : Lexicon) (cats : List String) (utts : List CleanUtt) (t : Int) (r : Row),
          r ∈ windowRows lex cats utts t → r.window_end - r.window_start = 30) := by
  intro cut
  have hlen : (timePoints cut).length = (cut.cend - cut.cstart + 14).toNat / 15 := by
    simp only [timePoints, List.length_map, List.length_range]
  have hget : ∀ (i : Nat) (h : i < (timePoints cut).length),
      (timePoints cut)[i] = cut.cstart + 15 * (i : Int) := by
    intro i h
    simp only [timePoints, List.getElem_map, List.getElem_range]
  refine ⟨?_, ?_, ?_, ?_⟩
  · intro i h
    refine ⟨hget i h, ?_⟩
    rw [hlen] at h
    omega
  · intro i h
    rw [hlen]
    omega
  · intro i h
    rw [hget (i + 1) h, hget i (by omega)]
    push_cast
    ring
  · intro lex cats utts t r h
    rcases windowRows_start_end lex cats utts t r h with ⟨h1, h2⟩
    rw [h1, h2]
    ring

theorem window_generation_law_witness :
    (0 : Int) + 15 * ((1 : Nat) : Int) < 40 ∧ (1 : Nat) < (timePoints ⟨0, 40⟩).length :=
  ⟨by decide, (window_generation_law ⟨0, 40⟩).2.1 1 (by decide)⟩

/-- Claim C1 as stated is false: with speakers `"A"` and `"B"` — neither on the
participant allow-list — both utterances are filtered out of every window,
so the aggregate row of window `[0,30)` is the sentinel row with `X = 0` and
speaker `"None"`, not `X = 1` with speaker `"A, B"`. -/
theorem group_speaker_join_counterexample :
    analyzeGroup [("x", "X")]
        [⟨some "A", some 0, some 5, some "x"⟩, ⟨some "B", some 1, some 6, some "mmm"⟩]
        ⟨0, 15⟩ = [⟨0, 30, [("X", 0)], "None"⟩]
    ∧ (analyzeGroup [("x", "X")]
        [⟨some "A", some 0, some 5, some "x"⟩, ⟨some "B", some 1, some 6, some "mmm"⟩]
        ⟨0, 15⟩).map GroupRow.speaker ≠ ["A, B"] := by
  constructor
  · decide
  · decide

theorem countP_flatMap_eq_sum {α β : Type} (p : β → Bool) (f : α → List β) :
    ∀ (l : List α), (l.flatMap f).countP p = (l.map (fun t => (f t).countP p)).sum := by
  intro l
  induction l with
  | nil => rfl
  | cons a l ih => simp [List.flatMap_cons, List.countP_append, ih]

theorem sum_le_one_of_single (w : Int) (g : Int → Nat) :
    ∀ (l : List Int), l.Nodup → (∀ t ∈ l, t ≠ w → g t = 0) → g w ≤ 1 →
      (l.map g).sum ≤ 1 := by
  intro l
  induction l with
  | nil => intro _ _ _; simp
  | cons a l ih =>
    intro hnd hz hw
    rcases List.nodup_cons.mp hnd with ⟨ha, hnd2⟩
    by_cases haw : a = w
    · subst haw
      have hzl : (l.map g).sum = 0 := by
        have : ∀ x ∈ l.map g, x = 0 := by
          intro x hx
          rcases List.mem_map.mp hx with ⟨t, ht, rfl⟩
          exact hz t (List.mem_cons_of_mem a ht) (fun he => ha (he ▸ ht))
        exact List.sum_eq_zero this
      simp [hzl]
      exact hw
    · have hga : g a = 0 := hz a (List.mem_cons_self a l) haw
      simp only [List.map_cons, List.sum_cons, hga, Nat.zero_add]
      exact ih hnd2 (fun t ht hne => hz t (List.mem_cons_of_mem a ht) hne) hw

theorem timePoints_nodup (cut : Cutoff) : (timePoints cut).Nodup := by
  refine List.Nodup.map ?_ (List.nodup_range _)
  intro a b hab
  have : cut.cstart + 15 * (a : Int) = cut.cstart + 15 * (b : Int) := hab
  omega

theorem timePoints_pairwise_lt (cut : Cutoff) : (timePoints cut).Pairwise (· < ·) := by
  refine List.Pairwise.map _ ?_ (List.pairwise_lt_range _)
  intro a b hab
  show cut.cstart + 15 * (a : Int) < cut.cstart + 15 * (b : Int)
  omega

theorem observedSpeakers_in_participants :
    ∀ (lex : Lexicon) (utts : List CleanUtt) (ws we : Int) (x : String),
      x ∈ observedSpeakers lex (utts.filter (inWindow ws we)) → x ∈ participantList := by
  intro lex utts ws we x hx
  rcases List.mem_map.mp (mem_firstDedup.mp hx) with ⟨u, hu, rfl⟩
  have hu2 : u ∈ utts.filter (inWindow ws we) := List.mem_of_mem_filter hu
  have hw : inWindow ws we u = true := List.of_mem_filter hu2
  have : participantList.contains u.speaker = true := by
    simp only [inWindow, Bool.and_eq_true] at hw
    exact hw.1.1
  exact List.elem_iff.mp this

theorem observedSpeakers_nodup (lex : Lexicon) (wutts : List CleanUtt) :
    (observedSpeakers lex wutts).Nodup :=
  nodup_firstDedup _

/-- In one window's rows, at most one row has speaker `s` or `"None"`. -/
theorem windowRows_countP_spk_le_one :
    ∀ (lex : Lexicon) (cats : List String) (utts : List CleanUtt) (t : Int) (s : String),
      (windowRows lex cats utts t).countP
        (fun r => r.speaker == s || r.speaker == "None") ≤ 1 := by
  intro lex cats utts t s
  unfold windowRows
  by_cases he : ((utts.filter (inWindow t (t + 30))).isEmpty) = true
  · rw [if_pos he, List.countP_singleton]
    split <;> simp
  · rw [if_neg he]
    rw [List.countP_map]
    have hcong : (observedSpeakers lex (utts.filter (inWindow t (t + 30)))).countP
        ((fun r : Row => r.speaker == s || r.speaker == "None") ∘
          (fun x => ⟨x, t, t + 30, cats.map (fun c =>
            (c, windowSpeakerCount lex (utts.filter (inWindow t (t + 30))) x c))⟩))
        = (observedSpeakers lex (utts.filter (inWindow t (t + 30)))).countP
            (fun x => x == s) := by
      refine List.countP_congr ?_
      intro x hx
      have hpart : x ∈ participantList := observedSpeakers_in_participants lex utts t (t + 30) x hx
      have hne : x ≠ "None" := by
        intro h
        subst h
        revert hpart
        decide
      simp [Function.comp, beq_eq_false_iff_ne.mpr hne]
    rw [hcong]
    rw [← List.count_eq_countP]
    exact List.nodup_iff_count_le_one.mp (observedSpeakers_nodup lex _) s

/-- Across the whole (unsorted) series, at most one row with a given window
start has speaker `s` or `"None"`. -/
theorem series_countP_spk_le_one :
    ∀ (lex : Lexicon) (cats : List String) (utts : List CleanUtt) (cut : Cutoff)
      (s : String) (w : Int),
      (speakerTimeSeries lex cats utts cut).countP
        (fun r => (r.window_start == w) && (r.speaker == s || r.speaker == "None")) ≤ 1 := by
  intro lex cats utts cut s w
  unfold speakerTimeSeries
  rw [countP_flatMap_eq_sum]
  refine sum_le_one_of_single w _ _ (timePoints_nodup cut) ?_ ?_
  · intro t ht hne
    refine List.countP_eq_zero.mpr ?_
    intro r hr
    have h1 := (windowRows_start_end lex cats utts t r hr).1
    simp [h1, beq_eq_false_iff_ne.mpr hne]
  · refine le_trans (List.countP_mono_left ?_) (windowRows_countP_spk_le_one lex cats utts w s)
    intro r _ hp
    exact ((Bool.and_eq_true _ _).mp hp).2

theorem series_rows_we :
    ∀ (lex : Lexicon) (cats : List String) (utts : List CleanUtt) (cut : Cutoff) (r : Row),
      r ∈ speakerTimeSeries lex cats utts cut → r.window_end = r.window_start + 30 := by
  intro lex cats utts cut r hr
  rcases List.mem_flatMap.mp hr with ⟨t, _, hw⟩
  rcases windowRows_start_end lex cats utts t r hw with ⟨h1, h2⟩
  rw [h1, h2]

theorem flatMap_eq_map_of_singleton {α β : Type} (f : α → List β) (g : α → β)
    (h : ∀ t, f t = [g t]) : ∀ (l : List α), l.flatMap f = l.map g := by
  intro l
  induction l with
  | nil => rfl
  | cons a l ih => simp only [List.flatMap_cons, h a, ih, List.map_cons, List.singleton_append]

theorem windowRows_empty_utts (lex : Lexicon) (cats : List String) (t : Int) :
    windowRows lex cats [] t = [noneRow cats t] := rfl

theorem sortedSeries_empty_utts :
    ∀ (lex : Lexicon) (cats : List String) (cut : Cutoff),
      sortedSeries lex cats [] cut = (timePoints cut).map (noneRow cats) := by
  intro lex cats cut
  unfold sortedSeries speakerTimeSeries
  rw [flatMap_eq_map_of_singleton _ _ (windowRows_empty_utts lex cats)]
  refine List.Sorted.insertionSort_eq ?_
  refine List.Pairwise.map _ ?_ (timePoints_pairwise_lt cut)
  intro a b hab
  exact Or.inl hab

theorem own_countP_eq (rows : List Row) (s : String) (w : Int) :
    (rows.filter (fun r => r.speaker == s || r.speaker == "None")).countP
      (fun r => r.window_start == w)
    = rows.countP
        (fun r => (r.window_start == w) && (r.speaker == s || r.speaker == "None")) := by
  rw [List.countP_filter]

theorem rows_combined_le_one :
    ∀ (entries : List (String × String)) (raws : List RawRow) (cut : Cutoff)
      (s : String) (w : Int),
      (analyzeSeries entries raws cut).countP
        (fun r => (r.window_start == w) && (r.speaker == s || r.speaker == "None")) ≤ 1 := by
  intro entries raws cut s w
  have hAeq : (analyzeSeries entries raws cut).countP
      (fun r => (r.window_start == w) && (r.speaker == s || r.speaker == "None"))
      = (speakerTimeSeries (buildLexicon entries) (allCategories (buildLexicon entries))
          (cleanUtterances raws cut) cut).countP
        (fun r => (r.window_start == w) && (r.speaker == s || r.speaker == "None")) :=
    ((List.perm_insertionSort rowLe _).countP_eq _)
  rw [hAeq]
  exact series_countP_spk_le_one _ _ _ cut s w

theorem firstDedup_length_partition {α : Type} [DecidableEq α] :
    ∀ (T a : List α), a.Nodup → (∀ x ∈ a, x ∈ T) →
      (firstDedup T).length
        = a.length + (firstDedup (T.filter (fun x => ! a.contains x))).length := by
  intro T a ha hsub
  have hD : (firstDedup T).Nodup := nodup_firstDedup T
  have hsplit : (firstDedup T).length
      = (firstDedup T).countP (fun x => a.contains x)
        + (firstDedup T).countP (fun x => ! a.contains x) := by
    rw [List.length_eq_countP_add_countP (fun x => a.contains x) (firstDedup T)]
    congr 1
    refine List.countP_congr ?_
    intro x _
    simp
  rw [hsplit]
  congr 1
  · rw [List.countP_eq_length_filter]
    have hperm : List.Perm ((firstDedup T).filter (fun x => a.contains x)) a := by
      rw [List.perm_ext_iff_of_nodup (hD.filter _) ha]
      intro x
      simp only [List.mem_filter, mem_firstDedup]
      constructor
      · rintro ⟨_, hc⟩
        exact List.elem_iff.mp hc
      · intro hx
        exact ⟨hsub x hx, List.elem_iff.mpr hx⟩
    exact hperm.length_eq
  · rw [List.countP_eq_length_filter]
    have hperm : List.Perm ((firstDedup T).filter (fun x => ! a.contains x))
        (firstDedup (T.filter (fun x => ! a.contains x))) := by
      rw [List.perm_ext_iff_of_nodup (hD.filter _) (nodup_firstDedup _)]
      intro x
      simp only [List.mem_filter, mem_firstDedup]
    exact hperm.length_eq

theorem firstDedup_pairs_length :
    ∀ (l : List (Int × Int)), (∀ p ∈ l, p.2 = p.1 + 30) →
      (firstDedup l).length = (firstDedup (l.map Prod.fst)).length := by
  intro l hdet
  have hinjon : ∀ x ∈ firstDedup l, ∀ y ∈ firstDedup l, x.1 = y.1 → x = y := by
    intro x hx y hy hxy
    have hx2 := hdet x (mem_firstDedup.mp hx)
    have hy2 := hdet y (mem_firstDedup.mp hy)
    rcases x with ⟨x1, x2⟩
    rcases y with ⟨y1, y2⟩
    have hx3 : x2 = x1 + 30 := hx2
    have hy3 : y2 = y1 + 30 := hy2
    have hxy2 : x1 = y1 := hxy
    simp only [Prod.mk.injEq]
    refine ⟨hxy2, ?_⟩
    rw [hx3, hy3, hxy2]
  have h1 : ((firstDedup l).map Prod.fst).Nodup :=
    List.Nodup.map_on hinjon (nodup_firstDedup l)
  have hperm : List.Perm ((firstDedup l).map Prod.fst) (firstDedup (l.map Prod.fst)) := by
    rw [List.perm_ext_iff_of_nodup h1 (nodup_firstDedup _)]
    intro w
    simp only [List.mem_map, mem_firstDedup]
  have hlen := hperm.length_eq
  rw [List.length_map] at hlen
  exact hlen

/-- Claim C2 amended: for every speaker other than the sentinel, the emitted
series consists of the speaker's own tally rows and the empty-window
sentinel rows — each labelled with its window start, at most one per window
start — followed by one unlabelled all-zero sentinel gap row (the `groupby`
keys stay in the index and the concat drops them to NaN) for each remaining
distinct window start of the combined table.  Hence the series has exactly
as many rows as the combined table has distinct window starts, but a window
tallied only by other speakers appears as an unlabelled gap row rather than
a row labelled with that window, and a generated window with no tally row
at all (its overlapping participant utterances all match nothing) is absent
entirely.  When no utterance survives cleaning, every generated window
contributes one all-zero sentinel row, so the combined table is dense
rather than empty. -/
theorem speaker_series_labelled_rows_and_unlabelled_gaps :
    (∀ (entries : List (String × String)) (raws : List RawRow) (cut : Cutoff)
      (s : String) (w : Int), s ≠ "None" →
      (analyzeSpeaker entries raws cut s).countP (fun r => r.window_start == some w)
        = (analyzeSeries entries raws cut).countP
            (fun r => (r.window_start == w) && (r.speaker == s || r.speaker == "None"))
      ∧ (analyzeSpeaker entries raws cut s).countP
          (fun r => r.window_start == some w) ≤ 1)
    ∧ (∀ (entries : List (String × String)) (raws : List RawRow) (cut : Cutoff)
        (s : String) (r : OutRow), r ∈ analyzeSpeaker entries raws cut s →
        r.window_start = none →
        r = ⟨"None", none, none, zeroCounts (allCategories (buildLexicon entries))⟩)
    ∧ (∀ (entries : List (String × String)) (raws : List RawRow) (cut : Cutoff)
        (s : String), s ≠ "None" →
        (analyzeSpeaker entries raws cut s).length
          = (firstDedup ((analyzeSeries entries raws cut).map
              (fun r => r.window_start))).length)
    ∧ (∀ (entries : List (String × String)) (raws : List RawRow) (cut : Cutoff),
      cleanUtterances raws cut = [] →
      analyzeSeries entries raws cut
        = (timePoints cut).map (noneRow (allCategories (buildLexicon entries)))) := by
  refine ⟨?_, ?_, ?_, ?_⟩
  · intro entries raws cut s w hs
    have hmain : analyzeSpeaker entries raws cut s
        = ((((analyzeSeries entries raws cut).filter
              (fun r => r.speaker == s || r.speaker == "None")).insertionSort
                rowStartLe).map toOutRow)
          ++ missingRows (analyzeSeries entries raws cut)
              ((analyzeSeries entries raws cut).filter
                (fun r => r.speaker == s || r.speaker == "None"))
              (allCategories (buildLexicon entries)) := rfl
    have hlab : (analyzeSpeaker entries raws cut s).countP
        (fun r => r.window_start == some w)
        = (analyzeSeries entries raws cut).countP
            (fun r => (r.window_start == w) && (r.speaker == s || r.speaker == "None")) := by
      rw [hmain, List.countP_append]
      have hgap : (missingRows (analyzeSeries entries raws cut)
          ((analyzeSeries entries raws cut).filter
            (fun r => r.speaker == s || r.speaker == "None"))
          (allCategories (buildLexicon entries))).countP
            (fun r => r.window_start == some w) = 0 := by
        refine List.countP_eq_zero.mpr ?_
        intro r hr
        unfold missingRows at hr
        rcases List.mem_map.mp hr with ⟨p, _, rfl⟩
        simp
      rw [hgap, Nat.add_zero, List.countP_map,
        ((List.perm_insertionSort rowStartLe _).countP_eq _)]
      have hcong : ((analyzeSeries entries raws cut).filter
          (fun r => r.speaker == s || r.speaker == "None")).countP
            ((fun r : OutRow => r.window_start == some w) ∘ toOutRow)
          = ((analyzeSeries entries raws cut).filter
              (fun r => r.speaker == s || r.speaker == "None")).countP
            (fun r => r.window_start == w) := by
        refine List.countP_congr ?_
        intro r _
        simp [toOutRow, Function.comp]
      rw [hcong, own_countP_eq]
    refine ⟨hlab, ?_⟩
    rw [hlab]
    exact rows_combined_le_one entries raws cut s w
  · intro entries raws cut s r hr hnone
    have hmain : analyzeSpeaker entries raws cut s
        = ((((analyzeSeries entries raws cut).filter
              (fun r => r.speaker == s || r.speaker == "None")).insertionSort
                rowStartLe).map toOutRow)
          ++ missingRows (analyzeSeries entries raws cut)
              ((analyzeSeries entries raws cut).filter
                (fun r => r.speaker == s || r.speaker == "None"))
              (allCategories (buildLexicon entries)) := rfl
    rw [hmain] at hr
    rcases List.mem_append.mp hr with h | h
    · rcases List.mem_map.mp h with ⟨r2, _, rfl⟩
      simp [toOutRow] at hnone
    · unfold missingRows at h
      rcases List.mem_map.mp h with ⟨p, _, rfl⟩
      rfl
  · intro entries raws cut s hs
    have hmain : analyzeSpeaker entries raws cut s
        = ((((analyzeSeries entries raws cut).filter
              (fun r => r.speaker == s || r.speaker == "None")).insertionSort
                rowStartLe).map toOutRow)
          ++ missingRows (analyzeSeries entries raws cut)
              ((analyzeSeries entries raws cut).filter
                (fun r => r.speaker == s || r.speaker == "None"))
              (allCategories (buildLexicon entries)) := rfl
    rw [hmain, List.length_append, List.length_map,
      ((List.perm_insertionSort rowStartLe _).length_eq)]
    unfold missingRows
    rw [List.length_map, ((List.perm_insertionSort pairLe _).length_eq)]
    have hwe_rows : ∀ r ∈ analyzeSeries entries raws cut,
        r.window_end = r.window_start + 30 := by
      intro r hr
      exact series_rows_we _ _ _ cut r (((List.perm_insertionSort rowLe _).mem_iff).mp hr)
    have hkeypairs : ∀ p ∈ (((analyzeSeries entries raws cut).filter
        (fun r => ! (((analyzeSeries entries raws cut).filter
            (fun r => r.speaker == s || r.speaker == "None")).map
          (·.window_start)).contains r.window_start)).map
        (fun r => (r.window_start, r.window_end))), p.2 = p.1 + 30 := by
      intro p hp
      rcases List.mem_map.mp hp with ⟨r, hr, rfl⟩
      exact hwe_rows r (List.mem_of_mem_filter hr)
    rw [firstDedup_pairs_length _ hkeypairs]
    have hmapfst : ((((analyzeSeries entries raws cut).filter
        (fun r => ! (((analyzeSeries entries raws cut).filter
            (fun r => r.speaker == s || r.speaker == "None")).map
          (·.window_start)).contains r.window_start)).map
        (fun r => (r.window_start, r.window_end))).map Prod.fst)
        = ((analyzeSeries entries raws cut).map (fun r => r.window_start)).filter
            (fun x => ! (((analyzeSeries entries raws cut).filter
              (fun r => r.speaker == s || r.speaker == "None")).map
                (·.window_start)).contains x) := by
      rw [List.map_map, List.filter_map]
      rfl
    rw [hmapfst]
    have ha_nodup : (((analyzeSeries entries raws cut).filter
        (fun r => r.speaker == s || r.speaker == "None")).map
          (·.window_start)).Nodup := by
      rw [List.nodup_iff_count_le_one]
      intro w2
      rw [List.count_eq_countP, List.countP_map]
      have hc : ((analyzeSeries entries raws cut).filter
          (fun r => r.speaker == s || r.speaker == "None")).countP
            ((fun x => x == w2) ∘ (fun r => r.window_start))
          = ((analyzeSeries entries raws cut).filter
              (fun r => r.speaker == s || r.speaker == "None")).countP
            (fun r => r.window_start == w2) := by
        refine List.countP_congr ?_
        intro r _
        simp [Function.comp]
      rw [hc, own_countP_eq]
      exact rows_combined_le_one entries raws cut s w2
    have ha_sub : ∀ x ∈ (((analyzeSeries entries raws cut).filter
        (fun r => r.speaker == s || r.speaker == "None")).map (·.window_start)),
        x ∈ (analyzeSeries entries raws cut).map (fun r => r.window_start) := by
      intro x hx
      rcases List.mem_map.mp hx with ⟨r, hr, rfl⟩
      exact List.mem_map.mpr ⟨r, List.mem_of_mem_filter hr, rfl⟩
    have hpart := firstDedup_length_partition
      ((analyzeSeries entries raws cut).map (fun r => r.window_start))
      (((analyzeSeries entries raws cut).filter
        (fun r => r.speaker == s || r.speaker == "None")).map (·.window_start))
      ha_nodup ha_sub
    rw [hpart, List.length_map]
  · intro entries raws cut h0
    show sortedSeries (buildLexicon entries) (allCategories (buildLexicon entries))
        (cleanUtterances raws cut) cut
      = (timePoints cut).map (noneRow (allCategories (buildLexicon entries)))
    rw [h0]
    exact sortedSeries_empty_utts _ _ cut

theorem speaker_series_labelled_rows_and_unlabelled_gaps_witness :
    (analyzeSpeaker [("x", "X")]
        [⟨some "HCILab1", some 0, some 5, some "x"⟩,
         ⟨some "HCILab2", some 0, some 6, some "x"⟩,
         ⟨some "HCILab2", some 15, some 20, some "x"⟩] ⟨0, 30⟩
        "HCILab1").countP (fun r => r.window_start == some 15)
      = (analyzeSeries [("x", "X")]
          [⟨some "HCILab1", some 0, some 5, some "x"⟩,
           ⟨some "HCILab2", some 0, some 6, some "x"⟩,
           ⟨some "HCILab2", some 15, some 20, some "x"⟩] ⟨0, 30⟩).countP
          (fun r => (r.window_start == 15)
            && (r.speaker == "HCILab1" || r.speaker == "None")) :=
  (speaker_series_labelled_rows_and_unlabelled_gaps.1 [("x", "X")]
    [⟨some "HCILab1", some 0, some 5, some "x"⟩,
     ⟨some "HCILab2", some 0, some 6, some "x"⟩,
     ⟨some "HCILab2", some 15, some 20, some "x"⟩] ⟨0, 30⟩ "HCILab1" 15 (by decide)).1

/-- Claim C2 as stated is false: with two utterances of the allow-listed speaker
`"HCILab1"` — one matching `"x"` in window `[0,30)`, one matching nothing
and overlapping only window `[15,45)` — the second generated window gets no
tally row at all (its only overlapping utterance matches nothing, and the
window is not empty, so no sentinel row is emitted either); the speaker's
series has a single row although two windows were generated. -/
theorem speaker_series_missing_window_counterexample :
    "HCILab1" ∈ realSpeakers (analyzeSeries [("x", "X")]
        [⟨some "HCILab1", some 0, some 5, some "x"⟩,
         ⟨some "HCILab1", some 15, some 20, some "zzz"⟩] ⟨0, 30⟩)
    ∧ (timePoints ⟨0, 30⟩).length = 2
    ∧ (analyzeSpeaker [("x", "X")]
        [⟨some "HCILab1", some 0, some 5, some "x"⟩,
         ⟨some "HCILab1", some 15, some 20, some "zzz"⟩]
        ⟨0, 30⟩ "HCILab1").length = 1 := by
  refine ⟨by decide, by decide, by decide⟩

theorem forall₂_map_same {α : Type} (R : Row → Row → Prop) (f g : α → Row) :
    ∀ (l : List α), (∀ x ∈ l, R (f x) (g x)) → List.Forall₂ R (l.map f) (l.map g) := by
  intro l
  induction l with
  | nil => intro _; exact List.Forall₂.nil
  | cons a l ih =>
    intro h
    exact List.Forall₂.cons (h a (List.mem_cons_self a l))
      (ih (fun x hx => h x (List.mem_cons_of_mem a hx)))

theorem windowRows_equiv :
    ∀ (lex : Lexicon) (cats1 cats2 : List String) (utts : List CleanUtt) (t : Int),
      cats1.Perm cats2 →
      List.Forall₂ rowEquiv (windowRows lex cats1 utts t) (windowRows lex cats2 utts t) := by
  intro lex cats1 cats2 utts t hperm
  unfold windowRows
  by_cases he : ((utts.filter (inWindow t (t + 30))).isEmpty) = true
  · rw [if_pos he, if_pos he]
    exact List.Forall₂.cons ⟨rfl, rfl, rfl, hperm.map _⟩ List.Forall₂.nil
  · rw [if_neg he, if_neg he]
    refine forall₂_map_same rowEquiv _ _ _ ?_
    intro x _
    exact ⟨rfl, rfl, rfl, hperm.map _⟩

theorem forall₂_append_rows {R : Row → Row → Prop} :
    ∀ {l1 l2 l3 l4 : List Row}, List.Forall₂ R l1 l2 → List.Forall₂ R l3 l4 →
      List.Forall₂ R (l1 ++ l3) (l2 ++ l4) := by
  intro l1 l2 l3 l4 h1 h2
  induction h1 with
  | nil => simpa using h2
  | cons hx hrest ih => exact List.Forall₂.cons hx ih

theorem forall₂_flatMap {R : Row → Row → Prop} (f g : Int → List Row)
    (h : ∀ t, List.Forall₂ R (f t) (g t)) :
    ∀ (l : List Int), List.Forall₂ R (l.flatMap f) (l.flatMap g) := by
  intro l
  induction l with
  | nil => exact List.Forall₂.nil
  | cons a l ih =>
    simp only [List.flatMap_cons]
    exact forall₂_append_rows (h a) ih

theorem rowLe_congr {a b a2 b2 : Row} (h1 : rowEquiv a b) (h2 : rowEquiv a2 b2) :
    rowLe a a2 ↔ rowLe b b2 := by
  unfold rowLe
  rw [h1.1, h1.2.1, h2.1, h2.2.1]

theorem orderedInsert_equiv :
    ∀ {l1 l2 : List Row}, List.Forall₂ rowEquiv l1 l2 →
      ∀ {a b : Row}, rowEquiv a b →
      List.Forall₂ rowEquiv (l1.orderedInsert rowLe a) (l2.orderedInsert rowLe b) := by
  intro l1 l2 hl
  induction hl with
  | nil =>
    intro a b hab
    exact List.Forall₂.cons hab List.Forall₂.nil
  | @cons x y l1' l2' hxy hrest ih =>
    intro a b hab
    simp only [List.orderedInsert]
    by_cases hle : rowLe a x
    · rw [if_pos hle, if_pos ((rowLe_congr hab hxy).mp hle)]
      exact List.Forall₂.cons hab (List.Forall₂.cons hxy hrest)
    · rw [if_neg hle, if_neg (fun hc => hle ((rowLe_congr hab hxy).mpr hc))]
      exact List.Forall₂.cons hxy (ih hab)

theorem insertionSort_equiv :
    ∀ {l1 l2 : List Row}, List.Forall₂ rowEquiv l1 l2 →
      List.Forall₂ rowEquiv (l1.insertionSort rowLe) (l2.insertionSort rowLe) := by
  intro l1 l2 h
  induction h with
  | nil => exact List.Forall₂.nil
  | cons h1 _ ih =>
    simp only [List.insertionSort]
    exact orderedInsert_equiv ih h1

theorem forall₂_rowKey_eq :
    ∀ {l1 l2 : List Row}, List.Forall₂ rowEquiv l1 l2 →
      l1.map rowKey = l2.map rowKey := by
  intro l1 l2 h
  induction h with
  | nil => rfl
  | cons h1 _ ih =>
    simp only [List.map_cons, ih]
    rcases h1 with ⟨hs, hws, hwe, _⟩
    rw [rowKey, rowKey, hs, hws, hwe]

theorem filter_speaker_via_key :
    ∀ (rows : List Row) (a b : Int),
      ((rows.filter (fun r => r.window_start == a && r.window_end == b)).map
        (fun r => r.speaker))
      = (((rows.map rowKey).filter (fun k => k.2.1 == a && k.2.2 == b)).map
          (fun k => k.1)) := by
  intro rows a b
  induction rows with
  | nil => rfl
  | cons r rows ih =>
    simp only [List.map_cons, List.filter_cons]
    by_cases h : (r.window_start == a && r.window_end == b) = true
    · have h2 : ((rowKey r).2.1 == a && (rowKey r).2.2 == b) = true := h
      rw [if_pos h, if_pos h2]
      simp only [List.map_cons, ih]
      rfl
    · have h2 : ¬ ((rowKey r).2.1 == a && (rowKey r).2.2 == b) = true := h
      rw [if_neg h, if_neg h2]
      exact ih

theorem groupSeries_speaker_eq :
    ∀ (rows1 rows2 : List Row) (cats1 cats2 : List String),
      rows1.map rowKey = rows2.map rowKey →
      (groupSeries rows1 cats1).map GroupRow.speaker
        = (groupSeries rows2 cats2).map GroupRow.speaker := by
  intro rows1 rows2 cats1 cats2 hk
  have hpairs : rows1.map (fun r => (r.window_start, r.window_end))
      = rows2.map (fun r => (r.window_start, r.window_end)) := by
    have h1 : rows1.map (fun r => (r.window_start, r.window_end))
        = (rows1.map rowKey).map (fun k => (k.2.1, k.2.2)) := by
      rw [List.map_map]
      rfl
    have h2 : rows2.map (fun r => (r.window_start, r.window_end))
        = (rows2.map rowKey).map (fun k => (k.2.1, k.2.2)) := by
      rw [List.map_map]
      rfl
    rw [h1, h2, hk]
  unfold groupSeries
  rw [hpairs, List.map_map, List.map_map]
  refine List.map_congr_left ?_
  intro p _
  show String.intercalate ", " ((firstDedup ((rows1.filter
      (fun r => r.window_start == p.1 && r.window_end == p.2)).map
        (fun r => r.speaker))).insertionSort strLe)
    = String.intercalate ", " ((firstDedup ((rows2.filter
        (fun r => r.window_start == p.1 && r.window_end == p.2)).map
          (fun r => r.speaker))).insertionSort strLe)
  rw [filter_speaker_via_key rows1, filter_speaker_via_key rows2, hk]

/-- Claim C9 as stated is false for the column order: the category columns are
enumerated from a Python `set`, whose iteration order is not a function of
the inputs (string hashing is randomized per process).  `["Y","X"]` and the
canonical enumeration are both enumerations of the same two-element category
set, yet they yield different output tables (the per-row category columns
are swapped). -/
theorem pipeline_output_depends_on_category_enumeration :
    (["Y", "X"] : List String).Perm (allCategories (buildLexicon [("x", "X"), ("y", "Y")]))
    ∧ sortedSeries (buildLexicon [("x", "X"), ("y", "Y")]) ["Y", "X"]
        (cleanUtterances [⟨some "HCILab1", some 0, some 5, some "x"⟩] ⟨0, 15⟩) ⟨0, 15⟩
      ≠ sortedSeries (buildLexicon [("x", "X"), ("y", "Y")])
          (allCategories (buildLexicon [("x", "X"), ("y", "Y")]))
          (cleanUtterances [⟨some "HCILab1", some 0, some 5, some "x"⟩] ⟨0, 15⟩) ⟨0, 15⟩ := by
  refine ⟨by decide, by decide⟩

/-- Claim C9 amended: for a fixed enumeration order of the category set the
pipeline is a pure function of its inputs, and the only effect of the
(unspecified) set-iteration order is a per-row permutation of the category
columns: for any two enumeration orders of the same categories the sorted
series agree row by row on speaker, window bounds and per-category counts,
and the aggregate table's comma-joined (sorted, de-duplicated) speaker
fields are identical. -/
theorem pipeline_deterministic_up_to_column_order :
    ∀ (lex : Lexicon) (cats1 cats2 : List String) (utts : List CleanUtt) (cut : Cutoff),
      cats1.Perm cats2 →
      List.Forall₂ rowEquiv (sortedSeries lex cats1 utts cut) (sortedSeries lex cats2 utts cut)
      ∧ (groupSeries (sortedSeries lex cats1 utts cut) cats1).map GroupRow.speaker
        = (groupSeries (sortedSeries lex cats2 utts cut) cats2).map GroupRow.speaker := by
  intro lex cats1 cats2 utts cut hperm
  have hseries : List.Forall₂ rowEquiv (sortedSeries lex cats1 utts cut)
      (sortedSeries lex cats2 utts cut) := by
    unfold sortedSeries speakerTimeSeries
    exact insertionSort_equiv
      (forall₂_flatMap _ _ (fun t => windowRows_equiv lex cats1 cats2 utts t hperm) _)
  exact ⟨hseries, groupSeries_speaker_eq _ _ cats1 cats2 (forall₂_rowKey_eq hseries)⟩

theorem pipeline_deterministic_up_to_column_order_witness :
    (groupSeries (sortedSeries (buildLexicon [("x", "X"), ("y", "Y")]) ["Y", "X"]
        (cleanUtterances [⟨some "HCILab1", some 0, some 5, some "x"⟩] ⟨0, 15⟩) ⟨0, 15⟩)
        ["Y", "X"]).map GroupRow.speaker
      = (groupSeries (sortedSeries (buildLexicon [("x", "X"), ("y", "Y")]) ["X", "Y"]
          (cleanUtterances [⟨some "HCILab1", some 0, some 5, some "x"⟩] ⟨0, 15⟩) ⟨0, 15⟩)
          ["X", "Y"]).map GroupRow.speaker :=
  (pipeline_deterministic_up_to_column_order (buildLexicon [("x", "X"), ("y", "Y")])
    ["Y", "X"] ["X", "Y"]
    (cleanUtterances [⟨some "HCILab1", some 0, some 5, some "x"⟩] ⟨0, 15⟩) ⟨0, 15⟩
    (by decide)).2

/-- Claim C1 amended: for a window containing two overlapping utterances from two
allow-listed speakers, where a token of the first speaker's utterance
matches category `X` exactly once and no token of the second speaker's
utterance matches any category, the aggregate row for that window has
`X = 1` and its speaker field contains only the matching speaker — a speaker
whose utterances match nothing is never registered in the window tally and
is absent from the window's speaker list, even though its utterance
overlaps the window. -/
theorem group_speaker_join_only_matching_speakers :
    analyzeGroup [("x", "X")]
        [⟨some "HCILab1", some 0, some 5, some "x"⟩,
         ⟨some "HCILab2", some 1, some 6, some "mmm"⟩]
        ⟨0, 15⟩ = [⟨0, 30, [("X", 1)], "HCILab1"⟩]
    ∧ inWindow 0 30 ⟨"HCILab2", 1, 6, tokenize "mmm"⟩ = true := by
  constructor
  · decide
  · decide
